import Mathlib

/-!
Verification development for the endpoint-resolution and access-mode core
(`lfsapi/endpoint_finder.go`).

Go strings are modelled as `List Char` (one `Char` per byte; all inputs of
interest are ASCII, where Go's byte-wise string order coincides with the
character-wise lexicographic order used here).  Go maps are modelled as
association lists; map iteration in `ReplaceUrlAlias` computes an
order-independent maximum, so a list fold is a faithful model.  External
collaborators that are not part of the translated source (the `lfshttp`
endpoint constructors, the configuration environment, the URL-config access
lookup, the remote-name validator) are modelled from the specification and
are marked as such in their doc comments.
-/

/-- Go string, modelled as a list of characters. -/
abbrev Str := List Char

/-- Converts a Lean string literal to the `Str` model. -/
def str (s : String) : Str := s.data

/-- Go `strings.HasPrefix s p` (is `p` a literal prefix of `s`). -/
def strStarts (s p : Str) : Bool := p.isPrefixOf s

/-- Go `strings.HasSuffix s p`. -/
def strEnds (s p : Str) : Bool := p.isSuffixOf s

/-- Go string comparison `a < b` (byte-wise lexicographic). -/
def goStrLt : Str → Str → Bool
  | _, [] => false
  | [], _ :: _ => true
  | a :: as, b :: bs => if a < b then true else if b < a then false else goStrLt as bs

/-- Go `strings.Index s (string c)`: index of the first occurrence of a character. -/
def strIndexOf : Str → Char → Option Nat
  | [], _ => none
  | x :: xs, c => if x = c then some 0 else (strIndexOf xs c).map (· + 1)

/-- Go `strings.LastIndex s (string c)`: index of the last occurrence of a character. -/
def strLastIndexOf : Str → Char → Option Nat
  | [], _ => none
  | x :: xs, c =>
    match strLastIndexOf xs c with
    | some i => some (i + 1)
    | none => if x = c then some 0 else none

/-- Lookup in an association list (Go map read). -/
def lookupAssoc {α : Type} : List (Str × α) → Str → Option α
  | [], _ => none
  | (k', v) :: rest, k => if k' = k then some v else lookupAssoc rest k

/-- Insert-or-replace in an association list (Go map assignment). -/
def setAssoc {α : Type} : List (Str × α) → Str → α → List (Str × α)
  | [], k, v => [(k, v)]
  | (k', v') :: rest, k, v =>
    if k' = k then (k, v) :: rest else (k', v') :: setAssoc rest k v

/-- Remove all bindings of a key from an association list (Go map / config key deletion). -/
def unsetAssoc {α : Type} (l : List (Str × α)) (k : Str) : List (Str × α) :=
  l.filter (fun p => p.1 ≠ k)

/-- ASCII lowercase of a Go string (`strings.ToLower`; all inputs of interest are ASCII). -/
def toLowerStr (s : Str) : Str := s.map Char.toLower

/-- One step of the `ReplaceUrlAlias` scan over the alias map: keep the
matching alias that compares greater than the current best
(`if longestalias < alias`). -/
def scanStep (rawurl : Str) (acc : Str) (p : Str × Str) : Str :=
  if strStarts rawurl p.1 then (if goStrLt acc p.1 then p.1 else acc) else acc

/-- The finder state (`endpointGitFinder`): configuration snapshot, default
transfer protocol, alias table, access cache, and the local configuration
written by `SetAccess`.  `hasGitEnv = false` models a nil `gitEnv`.
The function-valued fields `urlConfigAccess` (Modelled from the spec:
configuration lookup of the per-URL `lfs.<url>.access` value through the
URL-config collaborator) and `validRemote` (Modelled from the spec: the
remote-name validator, `git.ValidateRemote` succeeding) stand for external
collaborators whose code is not part of the translated source. -/
structure endpointGitFinder where
  hasGitEnv : Bool := true
  gitEnv : List (Str × List Str) := []
  gitProtocol : Str := str "https"
  aliases : List (Str × Str) := []
  urlAccess : List (Str × Str) := []
  localConfig : List (Str × Str) := []
  urlConfigAccess : Str → Str := fun _ => []
  validRemote : Str → Bool := fun _ => false

/-- Configuration read `gitEnv.Get key`; a key bound to a list of values
yields the last value (Modelled from the spec: `get(key) -> (value, found)`
over the configuration snapshot, last binding winning). -/
def envGet (env : List (Str × List Str)) (k : Str) : Option Str :=
  (lookupAssoc env k).bind List.getLast?

/-- `ReplaceUrlAlias`: rewrite a URL by the alias whose prefix matches and
scans greatest (`url.*.insteadof` handling). -/
def endpointGitFinder.ReplaceUrlAlias (e : endpointGitFinder) (rawurl : Str) : Str :=
  let longestalias := e.aliases.foldl (scanStep rawurl) []
  if 0 < longestalias.length then
    (lookupAssoc e.aliases longestalias).getD [] ++ rawurl.drop longestalias.length
  else rawurl

/-- The `url.` key pattern for alias configuration. -/
def aliasPfx : Str := str "url."

/-- The `.insteadof` key pattern for alias configuration. -/
def insteadofSfx : Str := str ".insteadof"

/-- `storeAlias`: record one alias; the prefix-to-replace is the last
configured value and the replacement is the middle of the key. -/
def storeAlias (aliases : List (Str × Str)) (key : Str) (value : List Str) : List (Str × Str) :=
  setAssoc aliases ((value.getLast?).getD [])
    ((key.take (key.length - insteadofSfx.length)).drop aliasPfx.length)

/-- `initAliases`: scan all configuration entries for `url.<X>.insteadof` keys. -/
def initAliases (env : List (Str × List Str)) : List (Str × Str) :=
  env.foldl
    (fun acc p =>
      if p.2.length = 0 ∨ ¬(strStarts p.1 aliasPfx ∧ strEnds p.1 insteadofSfx) then acc
      else storeAlias acc p.1 p.2)
    []

/-- Spec reading of the alias-table selection rule, as the claim states it:
among all configured prefixes that literally match, select the one of
greatest length, breaking ties toward the lexicographically greater prefix;
replace it, or return the URL unchanged when nothing matches. -/
def specBestStep (best : Option Str) (p : Str) : Option Str :=
  match best with
  | none => some p
  | some b =>
    if b.length < p.length ∨ (b.length = p.length ∧ goStrLt b p) then some p else some b

/-- Matching prefixes as the original claim reads them: every configured
prefix that is a literal prefix of the URL. -/
def specMatchesAll (rawurl : Str) (ps : List Str) : List Str :=
  ps.filter (fun p => strStarts rawurl p)

/-- Alias resolution as the original claim states it (every matching
configured prefix competes, the empty prefix included). -/
def specAliasResolveOrig (aliases : List (Str × Str)) (rawurl : Str) : Str :=
  match (specMatchesAll rawurl (aliases.map Prod.fst)).foldl specBestStep none with
  | none => rawurl
  | some m => (lookupAssoc aliases m).getD [] ++ rawurl.drop m.length

/-- Matching prefixes as the amended claim reads them: only non-empty
configured prefixes compete. -/
def specMatches (rawurl : Str) (ps : List Str) : List Str :=
  ps.filter (fun p => strStarts rawurl p && !p.isEmpty)

/-- Alias resolution as the amended claim states it: among the non-empty
configured prefixes matching the URL, the one of greatest length (ties to the
lexicographically greater) is replaced; if no non-empty prefix matches, the
URL is returned unchanged. -/
def specAliasResolve (aliases : List (Str × Str)) (rawurl : Str) : Str :=
  match (specMatches rawurl (aliases.map Prod.fst)).foldl specBestStep none with
  | none => rawurl
  | some m => (lookupAssoc aliases m).getD [] ++ rawurl.drop m.length

/-- Parsed URL value (Modelled from the spec: the generic URL parser the
scheme classifier attempts, i.e. Go `net/url.Parse`).  `opq` is the opaque
(rootless) part; `user` holds the raw userinfo.  The model keeps percent
escapes verbatim (no decoding or re-encoding); none of the inputs settled
here contain them. -/
structure GoURL where
  scheme : Str := []
  opq : Str := []
  user : Option Str := none
  host : Str := []
  path : Str := []
  forceQuery : Bool := false
  rawQuery : Str := []
  fragment : Str := []
deriving DecidableEq

/-- Split at the first occurrence of a character; the second component keeps
or cuts the separator (`net/url`'s `split`). -/
def goSplit : Str → Char → Bool → Str × Str
  | [], _, _ => ([], [])
  | x :: xs, c, cutc =>
    if x = c then ([], if cutc then xs else x :: xs)
    else
      let p := goSplit xs c cutc
      (x :: p.1, p.2)

/-- A control byte in the `net/url` sense (below space, or DEL). -/
def isCTL (c : Char) : Bool := c.toNat < 32 || c.toNat = 127

/-- Scheme-leading letters. -/
def isSchemeAlpha (c : Char) : Bool :=
  ('a' ≤ c ∧ c ≤ 'z') ∨ ('A' ≤ c ∧ c ≤ 'Z')

/-- Scheme continuation characters other than letters. -/
def isSchemeExtra (c : Char) : Bool :=
  ('0' ≤ c ∧ c ≤ '9') ∨ c = '+' ∨ c = '-' ∨ c = '.'

/-- Worker for `getscheme`: `raw` is the whole input, the first list argument
is the unread part, the second the characters read so far. -/
def getschemeGo (raw : Str) : Str → Str → Except Str (Str × Str)
  | [], _ => .ok ([], raw)
  | c :: rest, acc =>
    if isSchemeAlpha c then getschemeGo raw rest (acc ++ [c])
    else if isSchemeExtra c then
      (if acc.isEmpty then .ok ([], raw) else getschemeGo raw rest (acc ++ [c]))
    else if c = ':' then
      (if acc.isEmpty then .error (str "missing protocol scheme") else .ok (acc, rest))
    else .ok ([], raw)

/-- `net/url`'s `getscheme`: split a leading `scheme:` off the URL. -/
def getscheme (raw : Str) : Except Str (Str × Str) := getschemeGo raw raw []

/-- Digits only. -/
def isDigitCh (c : Char) : Bool := '0' ≤ c ∧ c ≤ '9'

/-- `net/url`'s `validOptionalPort`: empty, or `:` followed by digits. -/
def validOptionalPort (p : Str) : Bool :=
  match p with
  | [] => true
  | c :: rest => c = ':' && rest.all isDigitCh

/-- `net/url`'s `parseHost`, with percent-unescaping omitted (Modelled from
the spec: host component of the generic URL parse; no input settled here
carries escapes). -/
def parseHost (host : Str) : Except Str Str :=
  if strStarts host (str "[") then
    match strLastIndexOf host ']' with
    | none => .error (str "missing ']' in host")
    | some i =>
      if validOptionalPort (host.drop (i + 1)) then .ok host
      else .error (str "invalid port after host")
  else
    match strLastIndexOf host ':' with
    | some i =>
      if validOptionalPort (host.drop i) then .ok host
      else .error (str "invalid port after host")
    | none => .ok host

/-- `net/url`'s `validUserinfo` character test. -/
def isUserinfoCh (c : Char) : Bool :=
  ('A' ≤ c ∧ c ≤ 'Z') ∨ ('a' ≤ c ∧ c ≤ 'z') ∨ ('0' ≤ c ∧ c ≤ '9') ∨
    c = '-' ∨ c = '.' ∨ c = '_' ∨ c = ':' ∨ c = '~' ∨ c = '!' ∨ c = '$' ∨ c = '&' ∨
    c = '\'' ∨ c = '(' ∨ c = ')' ∨ c = '*' ∨ c = '+' ∨ c = ',' ∨ c = ';' ∨ c = '=' ∨
    c = '%' ∨ c = '@'

/-- `net/url`'s `parseAuthority`: split raw userinfo at the last `@` and
validate the host (userinfo unescaping omitted). -/
def parseAuthority (authority : Str) : Except Str (Option Str × Str) :=
  match strLastIndexOf authority '@' with
  | none =>
    match parseHost authority with
    | .error e => .error e
    | .ok h => .ok (none, h)
  | some i =>
    match parseHost (authority.drop (i + 1)) with
    | .error e => .error e
    | .ok h =>
      let userinfo := authority.take i
      if userinfo.all isUserinfoCh then .ok (some userinfo, h)
      else .error (str "net/url: invalid userinfo")

/-- The relative-URL colon restriction: the first path segment may not
contain a colon. -/
def firstSegmentHasColon (rest : Str) : Bool :=
  match strIndexOf rest ':' with
  | none => false
  | some ci =>
    match strIndexOf rest '/' with
    | none => true
    | some si => ci < si

/-- Body of `net/url.parse` (non-request form), fragment already removed. -/
def parseMain (rawurl : Str) : Except Str GoURL :=
  if rawurl.any isCTL then .error (str "net/url: invalid control character in URL")
  else if rawurl = str "*" then .ok { path := str "*" }
  else
    match getscheme rawurl with
    | .error e => .error e
    | .ok (scheme0, rest0) =>
      let scheme := toLowerStr scheme0
      let qsplit :=
        if strEnds rest0 (str "?") && !((rest0.dropLast).contains '?') then
          (rest0.dropLast, ([] : Str), true)
        else
          let p := goSplit rest0 '?' true
          (p.1, p.2, false)
      let rest1 := qsplit.1
      let rawQuery := qsplit.2.1
      let forceQuery := qsplit.2.2
      if ¬ (strStarts rest1 (str "/") = true) then
        if scheme ≠ [] then
          .ok { scheme := scheme, opq := rest1, rawQuery := rawQuery, forceQuery := forceQuery }
        else if firstSegmentHasColon rest1 then
          .error (str "first path segment in URL cannot contain colon")
        else
          .ok { scheme := scheme, path := rest1, rawQuery := rawQuery, forceQuery := forceQuery }
      else
        if (scheme ≠ [] ∨ ¬ (strStarts rest1 (str "///") = true)) ∧
            strStarts rest1 (str "//") = true then
          let ar := goSplit (rest1.drop 2) '/' false
          match parseAuthority ar.1 with
          | .error e => .error e
          | .ok uh =>
            .ok { scheme := scheme, user := uh.1, host := uh.2, path := ar.2,
                  rawQuery := rawQuery, forceQuery := forceQuery }
        else
          .ok { scheme := scheme, path := rest1, rawQuery := rawQuery, forceQuery := forceQuery }

/-- `net/url.Parse`: cut the fragment, parse the rest (fragment unescaping
omitted; a stored fragment is kept verbatim). -/
def urlParse (rawurl : Str) : Except Str GoURL :=
  let p := goSplit rawurl '#' true
  match parseMain p.1 with
  | .error e => .error e
  | .ok u => if p.2 = [] then .ok u else .ok { u with fragment := p.2 }

/-- The RFC 3986 §4.2 guard in `URL.String`: a leading path segment with a
colon needs a `./` prefix. -/
def pathNeedsDotSlash (p : Str) : Bool :=
  match strIndexOf p ':' with
  | none => false
  | some i => (strIndexOf (p.take i) '/').isNone

/-- `net/url`'s `URL.String` re-serialization (escaping omitted, matching the
parse model, which stores components verbatim). -/
def GoURL.toString (u : GoURL) : Str :=
  let b0 : Str := if u.scheme ≠ [] then u.scheme ++ [':'] else []
  let b1 : Str :=
    if u.opq ≠ [] then b0 ++ u.opq
    else
      let b2 : Str :=
        if u.scheme ≠ [] ∨ u.host ≠ [] ∨ u.user.isSome then
          b0 ++ (if u.host ≠ [] ∨ u.path ≠ [] ∨ u.user.isSome then str "//" else []) ++
            (match u.user with | some ui => ui ++ ['@'] | none => []) ++
            u.host
        else b0
      let b3 : Str :=
        if u.path ≠ [] ∧ u.path.head? ≠ some '/' ∧ u.host ≠ [] then b2 ++ ['/'] else b2
      let b4 : Str := if b3 = [] ∧ pathNeedsDotSlash u.path then b3 ++ str "./" else b3
      b4 ++ u.path
  let b5 : Str := if u.forceQuery ∨ u.rawQuery ≠ [] then b1 ++ ['?'] ++ u.rawQuery else b1
  if u.fragment ≠ [] then b5 ++ ['#'] ++ u.fragment else b5

/-- Transport family of a constructed endpoint (Modelled from the spec: the
scheme classifier's distinct endpoint constructions — HTTP, SSH, bare SSH,
local filesystem path, and plain/opaque pass-through values built directly). -/
inductive EndpointKind where
  | http
  | ssh
  | bareSsh
  | localPath
  | plain
deriving DecidableEq

/-- Resolved endpoint (Modelled from the spec: canonical URL string plus the
operation tag; SSH decomposition metadata is not inspected by any claim and
is omitted). -/
structure Endpoint where
  url : Str := []
  operation : Str := []
  kind : EndpointKind := .plain
deriving DecidableEq

/-- The designated unknown-URL sentinel (Modelled from the spec:
`lfshttp.UrlUnknown`). -/
def urlUnknown : Str := str "<unknown>"

/-- Modelled from the spec: `lfshttp.EndpointFromBareSshUrl` treats the raw
string as a bare SSH target. -/
def EndpointFromBareSshUrl (rawurl : Str) : Endpoint :=
  { url := rawurl, kind := .bareSsh }

/-- Modelled from the spec: `lfshttp.EndpointFromSshUrl` builds an SSH
endpoint from the parsed URL (user/host/port decomposition omitted). -/
def EndpointFromSshUrl (u : GoURL) : Endpoint :=
  { url := u.toString, kind := .ssh }

/-- Modelled from the spec: `lfshttp.EndpointFromHttpUrl` builds an HTTP
endpoint directly from the parsed URL, scheme preserved. -/
def EndpointFromHttpUrl (u : GoURL) : Endpoint :=
  { url := u.toString, kind := .http }

/-- Modelled from the spec: `lfshttp.EndpointFromLocalPath` treats the string
as a local filesystem path endpoint. -/
def EndpointFromLocalPath (p : Str) : Endpoint :=
  { url := p, kind := .localPath }

/-- `endpointFromGitUrl`: rewrite the scheme to the configured default
transfer protocol and re-serialize. -/
def endpointFromGitUrl (u : GoURL) (e : endpointGitFinder) : Endpoint :=
  { url := ({ u with scheme := e.gitProtocol } : GoURL).toString, kind := .plain }

/-- `NewEndpoint`: alias-rewrite, then classify the URL by scheme with
best-effort fallbacks. -/
def endpointGitFinder.NewEndpoint (e : endpointGitFinder) (operation rawurl : Str) : Endpoint :=
  let rawurl := e.ReplaceUrlAlias rawurl
  if strStarts rawurl (str "/") then EndpointFromLocalPath rawurl
  else
    match urlParse rawurl with
    | .error _ => EndpointFromBareSshUrl rawurl
    | .ok u =>
      if u.scheme = str "ssh" then EndpointFromSshUrl u
      else if u.scheme = str "http" ∨ u.scheme = str "https" then EndpointFromHttpUrl u
      else if u.scheme = str "git" then endpointFromGitUrl u e
      else if u.scheme = [] then EndpointFromBareSshUrl u.toString
      else if strStarts rawurl (u.scheme ++ str "::") then { url := rawurl, kind := .plain }
      else EndpointFromBareSshUrl u.toString

/-- Go `path.Ext` worker over the reversed string; `acc` carries the already
scanned tail in original order. -/
def extAux : Str → Str → Str
  | [], _ => []
  | c :: rest, acc =>
    if c = '/' then []
    else if c = '.' then c :: acc
    else extAux rest (c :: acc)

/-- Go `path.Ext`: the suffix from the final dot of the last path element. -/
def pathExt (p : Str) : Str := extAux p.reverse []

/-- `NewEndpointFromCloneURL`: classify, then derive the LFS API root; note
that the trailing-slash strip tests and copies the raw (pre-classification)
URL. -/
def endpointGitFinder.NewEndpointFromCloneURL (e : endpointGitFinder)
    (operation rawurl : Str) : Endpoint :=
  let ep := e.NewEndpoint operation rawurl
  if ep.url = urlUnknown then ep
  else
    let ep1 := if strEnds rawurl (str "/") then { ep with url := rawurl.dropLast } else ep
    if pathExt ep1.url = str ".git" then { ep1 with url := ep1.url ++ str "/info/lfs" }
    else { ep1 with url := ep1.url ++ str ".git/info/lfs" }

/-- Clone-URL adaptation as the original claim states it: the resolved URL
itself has one trailing slash stripped if present, then receives the
`info/lfs` suffix. -/
def specFromCloneURLOrig (e : endpointGitFinder) (operation rawurl : Str) : Endpoint :=
  let ep := e.NewEndpoint operation rawurl
  if ep.url = urlUnknown then ep
  else
    let base := if strEnds ep.url (str "/") then ep.url.dropLast else ep.url
    if pathExt base = str ".git" then { ep with url := base ++ str "/info/lfs" }
    else { ep with url := base ++ str ".git/info/lfs" }

/-- The default remote name. -/
def defaultRemote : Str := str "origin"

/-- The upload operation tag. -/
def uploadOp : Str := str "upload"

/-- `GitRemoteURL`: the remote's own configured URL (push URL preferred when
pushing), falling back to the validator accepting the name itself. -/
def endpointGitFinder.GitRemoteURL (e : endpointGitFinder) (remote : Str)
    (forpush : Bool) : Str :=
  let fromEnv : Option Str :=
    if e.hasGitEnv then
      match (if forpush then envGet e.gitEnv (str "remote." ++ remote ++ str ".pushurl")
             else none) with
      | some u => some u
      | none => envGet e.gitEnv (str "remote." ++ remote ++ str ".url")
    else none
  match fromEnv with
  | some u => u
  | none => if e.validRemote remote then remote else []

/-- `RemoteEndpoint`: remote-scoped LFS URL overrides, then the remote's own
URL through the clone-URL adapter. -/
def endpointGitFinder.RemoteEndpoint (e : endpointGitFinder)
    (operation remote : Str) : Endpoint :=
  if ¬ e.hasGitEnv then {}
  else
    let remote := if remote.length = 0 then defaultRemote else remote
    match (if operation = uploadOp then
             envGet e.gitEnv (str "remote." ++ remote ++ str ".lfspushurl")
           else none) with
    | some u => e.NewEndpoint operation u
    | none =>
      match envGet e.gitEnv (str "remote." ++ remote ++ str ".lfsurl") with
      | some u => e.NewEndpoint operation u
      | none =>
        let u := e.GitRemoteURL remote (operation = uploadOp)
        if u ≠ [] then e.NewEndpointFromCloneURL operation u
        else {}

/-- `getEndpoint`: the resolution cascade body. -/
def endpointGitFinder.getEndpoint (e : endpointGitFinder) (operation remote : Str) : Endpoint :=
  if ¬ e.hasGitEnv then {}
  else
    match (if operation = uploadOp then envGet e.gitEnv (str "lfs.pushurl") else none) with
    | some u => e.NewEndpoint operation u
    | none =>
      match envGet e.gitEnv (str "lfs.url") with
      | some u => e.NewEndpoint operation u
      | none =>
        if 0 < remote.length ∧ remote ≠ defaultRemote then
          let ep := e.RemoteEndpoint operation remote
          if 0 < ep.url.length then ep else e.RemoteEndpoint operation defaultRemote
        else e.RemoteEndpoint operation defaultRemote

/-- The `Endpoint` method: resolve, then attach the operation tag. -/
def endpointGitFinder.Endpoint (e : endpointGitFinder) (operation remote : Str) : Endpoint :=
  { e.getEndpoint operation remote with operation := operation }

/-- Resolution cascade as the specification words it (§4.4): global push-URL
override for uploads, then the global LFS URL, then remote-scoped resolution
for an explicit non-default remote when it yields a non-empty URL, then
remote-scoped resolution for the default remote; the operation annotation is
attached to the result, a zero endpoint when no configuration source exists. -/
def specRemoteScoped (e : endpointGitFinder) (operation remote : Str) : Endpoint :=
  match ((if operation = uploadOp then
            envGet e.gitEnv (str "remote." ++ remote ++ str ".lfspushurl")
          else none) <|>
         envGet e.gitEnv (str "remote." ++ remote ++ str ".lfsurl")) with
  | some u => e.NewEndpoint operation u
  | none =>
    let own :=
      match (if operation = uploadOp then
               envGet e.gitEnv (str "remote." ++ remote ++ str ".pushurl")
             else none) <|>
            envGet e.gitEnv (str "remote." ++ remote ++ str ".url") with
      | some u => u
      | none => if e.validRemote remote then remote else []
    if own ≠ [] then e.NewEndpointFromCloneURL operation own else {}

/-- Resolution cascade as the specification words it, operation annotation
included. -/
def specEndpointFor (e : endpointGitFinder) (operation remote : Str) : Endpoint :=
  if ¬ e.hasGitEnv then { (Endpoint.mk [] [] .plain) with operation := operation }
  else
    let resolved :=
      match ((if operation = uploadOp then envGet e.gitEnv (str "lfs.pushurl") else none) <|>
             envGet e.gitEnv (str "lfs.url")) with
      | some u => e.NewEndpoint operation u
      | none =>
        if 0 < remote.length ∧ remote ≠ defaultRemote ∧
            0 < (specRemoteScoped e operation remote).url.length then
          specRemoteScoped e operation remote
        else specRemoteScoped e operation defaultRemote
    { resolved with operation := operation }

/-- `NewEndpointFinder`: constructor snapshotting the configuration, the
default protocol (overridable through `lfs.gitprotocol`) and the alias
table.  The URL-config access oracle and the remote validator are passed in
(Modelled from the spec: external collaborators). -/
def NewEndpointFinder (env : List (Str × List Str)) (vr : Str → Bool)
    (cfgAccess : Str → Str) : endpointGitFinder :=
  { hasGitEnv := true
    gitEnv := env
    gitProtocol := (envGet env (str "lfs.gitprotocol")).getD (str "https")
    aliases := initAliases env
    urlAccess := []
    localConfig := []
    urlConfigAccess := cfgAccess
    validRemote := vr }

/-- Access modes are strings in the source (`type AccessMode string`). -/
def NoneAccess : Str := str "none"

/-- The basic access mode. -/
def BasicAccess : Str := str "basic"

/-- The deprecated private access mode. -/
def PrivateAccess : Str := str "private"

/-- The negotiate access mode. -/
def NegotiateAccess : Str := str "negotiate"

/-- The NTLM access mode. -/
def NTLMAccess : Str := str "ntlm"

/-- The internal empty (unset) sentinel. -/
def emptyAccess : Str := []

/-- A negotiated access mode paired with the URL it applies to. -/
structure Access where
  mode : Str := []
  url : Str := []
deriving DecidableEq

/-- `urlWithoutAuth`: strip userinfo, but only when an `@` is present; on
parse failure the original string is used. -/
def urlWithoutAuth (rawurl : Str) : Str :=
  if ¬ (rawurl.contains '@' = true) then rawurl
  else
    match urlParse rawurl with
    | .error _ => rawurl
    | .ok u => ({ u with user := none } : GoURL).toString

/-- `fetchGitAccess`: read `lfs.<url>.access`, lowercase it, normalize the
deprecated `private` to `basic`, default to `none`. -/
def endpointGitFinder.fetchGitAccess (e : endpointGitFinder) (rawurl : Str) : Str :=
  let v := e.urlConfigAccess rawurl
  if 0 < v.length then
    let access := toLowerStr v
    if access = PrivateAccess then BasicAccess else access
  else NoneAccess

/-- `AccessFor`: serve the mode from the cache, filling it on a miss.  The
third component counts configuration lookups performed by the call (0 or 1),
making the no-repeated-lookup property observable. -/
def endpointGitFinder.AccessFor (e : endpointGitFinder) (rawurl : Str) :
    Access × endpointGitFinder × Nat :=
  let accessurl := urlWithoutAuth rawurl
  if ¬ e.hasGitEnv then ({ mode := NoneAccess, url := accessurl }, e, 0)
  else
    match lookupAssoc e.urlAccess accessurl with
    | some cached => ({ mode := cached, url := accessurl }, e, 0)
    | none =>
      let m := e.fetchGitAccess accessurl
      ({ mode := m, url := accessurl },
       { e with urlAccess := setAssoc e.urlAccess accessurl m }, 1)

/-- `SetAccess`: `none` and the empty sentinel unset the local configuration
key and cache `none`; any other mode is written to local configuration and
cached. -/
def endpointGitFinder.SetAccess (e : endpointGitFinder) (access : Access) :
    endpointGitFinder :=
  let key := str "lfs." ++ access.url ++ str ".access"
  if access.mode = emptyAccess ∨ access.mode = NoneAccess then
    { e with localConfig := unsetAssoc e.localConfig key
             urlAccess := setAssoc e.urlAccess access.url NoneAccess }
  else
    { e with localConfig := setAssoc e.localConfig key access.mode
             urlAccess := setAssoc e.urlAccess access.url access.mode }

/-- A finder with no configured state, protocol defaults, for concrete
evaluations. -/
def finder0 : endpointGitFinder := {}

/-- The alias table holding only an empty prefix mapped to `X`. -/
def emptyAliasTable : List (Str × Str) := [([], str "X")]

/-- A finder whose only alias binds the empty prefix. -/
def finderEmptyAlias : endpointGitFinder := { aliases := emptyAliasTable }

/-- A finder whose configured `lfs.<url>.access` value is always `digest`,
a value outside the documented enumeration. -/
def finderDigest : endpointGitFinder := { urlConfigAccess := fun _ => str "digest" }

/-- Configuration for the C3 precedence scenario: no global LFS URL, an
explicit remote-scoped LFS URL, and a plain clone URL for `origin`. -/
def scenarioEnv : List (Str × List Str) :=
  [(str "remote.origin.lfsurl", [str "https://a/api"]),
   (str "remote.origin.url", [str "https://a/repo.git"])]

/-- Finder for the C3 precedence scenario. -/
def finderScenario : endpointGitFinder :=
  NewEndpointFinder scenarioEnv (fun _ => false) (fun _ => [])

/-- Finder with `lfs.gitprotocol` overridden to `ssh`. -/
def finderSshProtocol : endpointGitFinder :=
  NewEndpointFinder [(str "lfs.gitprotocol", [str "ssh"])] (fun _ => false) (fun _ => [])

/-- A finder whose configured `lfs.<url>.access` value is always the
deprecated `private`. -/
def finderPrivate : endpointGitFinder := { urlConfigAccess := fun _ => PrivateAccess }

theorem goStrLt_nil_right (a : Str) : goStrLt a [] = false := by
  cases a <;> rfl

theorem goStrLt_nil_left {b : Str} (h : b ≠ []) : goStrLt [] b = true := by
  cases b with
  | nil => exact absurd rfl h
  | cons x xs => rfl

theorem goStrLt_irrefl (a : Str) : goStrLt a a = false := by
  induction a with
  | nil => rfl
  | cons x xs ih => simp [goStrLt, ih]

theorem goStrLt_of_prefix_ne {a b : Str} (h : a <+: b) (hne : a ≠ b) :
    goStrLt a b = true := by
  induction a generalizing b with
  | nil => exact goStrLt_nil_left (fun hb => hne hb.symm)
  | cons x xs ih =>
    obtain ⟨t, ht⟩ := h
    subst ht
    simp only [List.cons_append, goStrLt, lt_irrefl, if_false]
    exact ih (List.prefix_append xs t) (fun hxs => hne (by simp [← hxs]; exact
      (List.append_right_eq_self.mp hxs.symm) ▸ rfl))

theorem goStrLt_of_prefix_rev {a b : Str} (h : b <+: a) : goStrLt a b = false := by
  induction b generalizing a with
  | nil => exact goStrLt_nil_right a
  | cons x xs ih =>
    obtain ⟨t, ht⟩ := h
    subst ht
    simp only [List.cons_append, goStrLt, lt_irrefl, if_false]
    exact ih (List.prefix_append xs t)

theorem lookupAssoc_setAssoc_self {α : Type} (l : List (Str × α)) (k : Str) (v : α) :
    lookupAssoc (setAssoc l k v) k = some v := by
  induction l with
  | nil => simp [setAssoc, lookupAssoc]
  | cons p rest ih =>
    obtain ⟨k', v'⟩ := p
    by_cases h : k' = k
    · simp [setAssoc, lookupAssoc, h]
    · simp [setAssoc, lookupAssoc, h, ih]

theorem lookupAssoc_unsetAssoc_self {α : Type} (l : List (Str × α)) (k : Str) :
    lookupAssoc (unsetAssoc l k) k = none := by
  induction l with
  | nil => rfl
  | cons p rest ih =>
    obtain ⟨k', v'⟩ := p
    by_cases h : k' = k
    · simpa [unsetAssoc, h] using ih
    · simpa [unsetAssoc, lookupAssoc, h] using ih

theorem specMatches_cons (url p : Str) (l : List Str) :
    specMatches url (p :: l) =
      if (strStarts url p && !p.isEmpty) = true then p :: specMatches url l
      else specMatches url l := by
  simp only [specMatches, List.filter_cons]

theorem specBest_isSome (ms : List Str) (b : Str) :
    ∃ m, ms.foldl specBestStep (some b) = some m := by
  induction ms generalizing b with
  | nil => exact ⟨b, rfl⟩
  | cons p rest ih =>
    simp only [List.foldl_cons, specBestStep]
    by_cases hc : b.length < p.length ∨ (b.length = p.length ∧ goStrLt b p = true)
    · rw [if_pos hc]
      exact ih p
    · rw [if_neg hc]
      exact ih b

theorem specBest_mem (ms : List Str) (o : Option Str) (m : Str)
    (h : ms.foldl specBestStep o = some m) : o = some m ∨ m ∈ ms := by
  induction ms generalizing o with
  | nil => exact Or.inl h
  | cons p rest ih =>
    rcases ih (specBestStep o p) h with h1 | h1
    · cases o with
      | none =>
        have hm : p = m := Option.some.inj h1
        exact Or.inr (hm ▸ List.mem_cons_self p rest)
      | some b =>
        simp only [specBestStep] at h1
        by_cases hc : b.length < p.length ∨ (b.length = p.length ∧ goStrLt b p = true)
        · rw [if_pos hc] at h1
          have hm : p = m := Option.some.inj h1
          exact Or.inr (hm ▸ List.mem_cons_self p rest)
        · rw [if_neg hc] at h1
          exact Or.inl h1
    · exact Or.inr (List.mem_cons_of_mem _ h1)

theorem scan_fold_eq (url : Str) (l : List (Str × Str)) (acc : Str)
    (hacc : acc = [] ∨ acc <+: url) :
    l.foldl (scanStep url) acc =
      ((specMatches url (l.map Prod.fst)).foldl specBestStep
        (if acc = [] then none else some acc)).getD acc := by
  induction l generalizing acc with
  | nil =>
    by_cases h : acc = [] <;> simp [specMatches, h]
  | cons p rest ih =>
    simp only [List.foldl_cons, List.map_cons, specMatches_cons]
    by_cases hpre : strStarts url p.1 = true
    · by_cases hemp : p.1 = []
      · have hstep : scanStep url acc p = acc := by
          simp [scanStep, hpre, hemp, goStrLt_nil_right]
        have hfilter : (strStarts url p.1 && !p.1.isEmpty) = false := by
          simp [hemp]
        rw [hstep, hfilter, if_neg Bool.false_ne_true]
        exact ih acc hacc
      · have hfilter : (strStarts url p.1 && !p.1.isEmpty) = true := by
          simp [hpre, hemp]
        rw [hfilter, if_pos rfl, List.foldl_cons]
        have hp1url : p.1 <+: url := List.isPrefixOf_iff_prefix.mp hpre
        by_cases hacc0 : acc = []
        · have hstep : scanStep url acc p = p.1 := by
            simp [scanStep, hpre, hacc0, goStrLt_nil_left hemp]
          rw [hstep, if_pos hacc0]
          have hbest : specBestStep none p.1 = some p.1 := rfl
          rw [hbest]
          have hih := ih p.1 (Or.inr hp1url)
          rw [if_neg hemp] at hih
          rw [hih]
          obtain ⟨m, hm⟩ := specBest_isSome (specMatches url (rest.map Prod.fst)) p.1
          rw [hm]
          simp only [Option.getD_some]
        · have haccurl : acc <+: url := hacc.resolve_left hacc0
          rw [if_neg hacc0]
          by_cases heq : acc = p.1
          · have hstep : scanStep url acc p = acc := by
              simp [scanStep, hpre, heq, goStrLt_irrefl]
            have hbest : specBestStep (some acc) p.1 = some acc := by
              simp only [specBestStep, heq, lt_irrefl, goStrLt_irrefl]
              simp
            rw [hstep, hbest]
            have hih := ih acc hacc
            rw [if_neg hacc0] at hih
            exact hih
          · rcases Nat.lt_trichotomy acc.length p.1.length with hlt | hlen | hgt
            · have hpre2 : acc <+: p.1 :=
                List.prefix_of_prefix_length_le haccurl hp1url (Nat.le_of_lt hlt)
              have hstep : scanStep url acc p = p.1 := by
                simp [scanStep, hpre, goStrLt_of_prefix_ne hpre2 heq]
              have hbest : specBestStep (some acc) p.1 = some p.1 := by
                simp [specBestStep, hlt]
              rw [hstep, hbest]
              have hih := ih p.1 (Or.inr hp1url)
              rw [if_neg hemp] at hih
              rw [hih]
              obtain ⟨m, hm⟩ := specBest_isSome (specMatches url (rest.map Prod.fst)) p.1
              rw [hm]
              simp only [Option.getD_some]
            · exact absurd (List.IsPrefix.eq_of_length
                (List.prefix_of_prefix_length_le haccurl hp1url (Nat.le_of_eq hlen)) hlen) heq
            · have hpre2 : p.1 <+: acc :=
                List.prefix_of_prefix_length_le hp1url haccurl (Nat.le_of_lt hgt)
              have hstep : scanStep url acc p = acc := by
                simp [scanStep, hpre, goStrLt_of_prefix_rev hpre2]
              have hbest : specBestStep (some acc) p.1 = some acc := by
                have h1 : ¬ acc.length < p.1.length := Nat.not_lt.mpr (Nat.le_of_lt hgt)
                have h2 : acc.length ≠ p.1.length := Nat.ne_of_gt hgt
                simp [specBestStep, h1, h2]
              rw [hstep, hbest]
              have hih := ih acc hacc
              rw [if_neg hacc0] at hih
              exact hih
    · have hstep : scanStep url acc p = acc := by
        simp [scanStep, hpre]
      have hfilter : (strStarts url p.1 && !p.1.isEmpty) = false := by
        simp [hpre]
      rw [hstep, hfilter, if_neg Bool.false_ne_true]
      exact ih acc hacc

theorem specMatches_ne_nil {url : Str} {ps : List Str} {m : Str}
    (h : m ∈ specMatches url ps) : m ≠ [] := by
  simp only [specMatches, List.mem_filter, Bool.and_eq_true, Bool.not_eq_true'] at h
  intro he
  rw [he] at h
  simp [List.isEmpty] at h

/-- C1 (amended): for every alias table and raw URL, `ReplaceUrlAlias`
selects among the configured NON-EMPTY alias prefixes that literally match
the URL the one of greatest length (ties to the lexicographically greater
prefix) and substitutes its replacement; when no non-empty configured prefix
matches — in particular when only an empty configured prefix matches — the
URL is returned unchanged. -/
theorem C1_alias_resolution (e : endpointGitFinder) (rawurl : Str) :
    e.ReplaceUrlAlias rawurl = specAliasResolve e.aliases rawurl := by
  have h := scan_fold_eq rawurl e.aliases [] (Or.inl rfl)
  rw [if_pos rfl] at h
  simp only [endpointGitFinder.ReplaceUrlAlias, specAliasResolve, h]
  rcases hfold : (specMatches rawurl (e.aliases.map Prod.fst)).foldl specBestStep none
    with _ | m
  · simp
  · have hmem := specBest_mem _ _ _ hfold
    have hm : m ∈ specMatches rawurl (e.aliases.map Prod.fst) := by
      rcases hmem with h1 | h1
      · exact absurd h1 (by simp)
      · exact h1
    have hne : m ≠ [] := specMatches_ne_nil hm
    have hlen : 0 < m.length := List.length_pos.mpr hne
    simp [hlen]

/-- C1 counterexample: an alias table whose only entry binds the empty
prefix (reachable from the configuration key `url.X.insteadof` with an empty
value) refutes the claim as stated: the empty prefix is a literal prefix of
`u` and the greatest-length match, so the claim predicts `Xu`, but
`ReplaceUrlAlias` returns `u` unchanged. -/
theorem C1_counterexample :
    finderEmptyAlias.ReplaceUrlAlias (str "u") = str "u" ∧
    specAliasResolveOrig emptyAliasTable (str "u") = str "Xu" ∧
    str "u" ≠ str "Xu" ∧
    initAliases [(str "url.X.insteadof", [([] : Str)])] = emptyAliasTable := by
  refine ⟨by decide, by decide, by decide, by decide⟩

/-- C2 (amended): for every operation and raw clone URL whose resolution is
not the unknown sentinel, the endpoint URL is built from a base that is the
RAW clone URL with its single trailing `/` removed when the raw URL ends in
`/` — replacing, in that case, whatever alias rewriting or scheme
transformation produced — and the resolved URL unchanged otherwise; the base
is then suffixed with `/info/lfs` when its final path extension is `.git`
and with `.git/info/lfs` otherwise. -/
theorem C2_clone_url_suffix (e : endpointGitFinder) (operation rawurl : Str)
    (h : (e.NewEndpoint operation rawurl).url ≠ urlUnknown) :
    (e.NewEndpointFromCloneURL operation rawurl).url =
      (if strEnds rawurl (str "/") = true then rawurl.dropLast
       else (e.NewEndpoint operation rawurl).url) ++
      (if pathExt (if strEnds rawurl (str "/") = true then rawurl.dropLast
                   else (e.NewEndpoint operation rawurl).url) = str ".git"
       then str "/info/lfs" else str ".git/info/lfs") := by
  simp only [endpointGitFinder.NewEndpointFromCloneURL]
  rw [if_neg h]
  by_cases hs : strEnds rawurl (str "/") = true
  · simp only [if_pos hs]
    by_cases hg : pathExt rawurl.dropLast = str ".git"
    · simp [hg]
    · simp [hg]
  · simp only [if_neg hs]
    by_cases hg : pathExt (e.NewEndpoint operation rawurl).url = str ".git"
    · simp [hg]
    · simp [hg]

/-- C2 witness: for the plain clone URL `https://h/r` the resolution is not
unknown and the derived API root is `https://h/r.git/info/lfs`. -/
theorem C2_witness :
    (finder0.NewEndpoint (str "download") (str "https://h/r")).url ≠ urlUnknown ∧
    (finder0.NewEndpointFromCloneURL (str "download") (str "https://h/r")).url =
      str "https://h/r.git/info/lfs" := by
  refine ⟨by decide, ?_⟩
  have h := C2_clone_url_suffix finder0 (str "download") (str "https://h/r") (by decide)
  rw [h]
  decide

/-- C2 counterexample: for the raw clone URL `git://h/r/` the resolved URL
is `https://h/r/` (the `git` scheme is upgraded), but the trailing-slash
strip copies the RAW url, so the code yields `git://h/r.git/info/lfs` while
the claim predicts `https://h/r.git/info/lfs`. -/
theorem C2_counterexample :
    (finder0.NewEndpointFromCloneURL (str "download") (str "git://h/r/")).url =
      str "git://h/r.git/info/lfs" ∧
    (specFromCloneURLOrig finder0 (str "download") (str "git://h/r/")).url =
      str "https://h/r.git/info/lfs" ∧
    (finder0.NewEndpoint (str "download") (str "git://h/r/")).url = str "https://h/r/" ∧
    str "git://h/r.git/info/lfs" ≠ str "https://h/r.git/info/lfs" := by
  refine ⟨by decide, by decide, by decide, by decide⟩

/-- C4: the five-input classification oracle, plus the `lfs.gitprotocol`
override: `https://h/r.git` is an HTTP endpoint with the URL unchanged,
`git@h:r.git` is bare SSH, `git://h/r` under the default protocol becomes
`https://h/r`, `h:r.git` is bare SSH, `myhelper::h/r` passes through as an
opaque endpoint with the URL unchanged, and with `lfs.gitprotocol = ssh` the
`git` scheme is rewritten to `ssh` instead. -/
theorem C4_scheme_classification :
    ((finder0.NewEndpoint (str "download") (str "https://h/r.git")).url =
        str "https://h/r.git" ∧
      (finder0.NewEndpoint (str "download") (str "https://h/r.git")).kind = .http) ∧
    (finder0.NewEndpoint (str "download") (str "git@h:r.git")).kind = .bareSsh ∧
    (finder0.NewEndpoint (str "download") (str "git://h/r")).url = str "https://h/r" ∧
    (finder0.NewEndpoint (str "download") (str "h:r.git")).kind = .bareSsh ∧
    ((finder0.NewEndpoint (str "download") (str "myhelper::h/r")).url =
        str "myhelper::h/r" ∧
      (finder0.NewEndpoint (str "download") (str "myhelper::h/r")).kind = .plain) ∧
    (finderSshProtocol.NewEndpoint (str "download") (str "git://h/r")).url =
      str "ssh://h/r" := by
  refine ⟨⟨by decide, by decide⟩, by decide, by decide, by decide,
    ⟨by decide, by decide⟩, by decide⟩

/-- C5: `NewEndpoint` is total (its type returns an `Endpoint`, never an
error) and degrades as the claim states: when the generic URL parse of the
alias-resolved URL fails, the result is the bare-SSH interpretation of that
string; when the parse succeeds with a scheme that is none of `ssh`,
`http`, `https`, `git`, or empty, the result is the opaque pass-through
endpoint if the string begins with `<scheme>::`, and the bare-SSH
interpretation of the re-serialized URL otherwise. -/
theorem C5_parse_fallback (e : endpointGitFinder) (operation rawurl : Str)
    (hloc : ¬ (strStarts (e.ReplaceUrlAlias rawurl) (str "/") = true)) :
    (∀ msg, urlParse (e.ReplaceUrlAlias rawurl) = .error msg →
       e.NewEndpoint operation rawurl =
         EndpointFromBareSshUrl (e.ReplaceUrlAlias rawurl)) ∧
    (∀ u : GoURL, urlParse (e.ReplaceUrlAlias rawurl) = .ok u →
       u.scheme ≠ str "ssh" → u.scheme ≠ str "http" → u.scheme ≠ str "https" →
       u.scheme ≠ str "git" → u.scheme ≠ [] →
       e.NewEndpoint operation rawurl =
         (if strStarts (e.ReplaceUrlAlias rawurl) (u.scheme ++ str "::") = true
          then { url := e.ReplaceUrlAlias rawurl, operation := [], kind := .plain }
          else EndpointFromBareSshUrl u.toString)) := by
  constructor
  · intro msg hmsg
    simp only [endpointGitFinder.NewEndpoint]
    rw [if_neg hloc, hmsg]
  · intro u hu h1 h2 h3 h4 h5
    simp only [endpointGitFinder.NewEndpoint]
    rw [if_neg hloc, hu]
    simp [h1, h2, h3, h4, h5]

/-- C5 witness: a parse failure (`git@h:r.git`, whose first path segment
contains a colon) degrades to bare SSH, and the unrecognized scheme of
`myhelper::h/r` passes through opaquely. -/
theorem C5_witness :
    finder0.NewEndpoint (str "download") (str "git@h:r.git") =
      EndpointFromBareSshUrl (str "git@h:r.git") ∧
    finder0.NewEndpoint (str "download") (str "myhelper::h/r") =
      { url := str "myhelper::h/r", operation := [], kind := .plain } := by
  constructor
  · exact (C5_parse_fallback finder0 (str "download") (str "git@h:r.git") (by decide)).1
      (str "first path segment in URL cannot contain colon") (by rfl)
  · have h := (C5_parse_fallback finder0 (str "download") (str "myhelper::h/r")
      (by decide)).2
    have hu : urlParse (finder0.ReplaceUrlAlias (str "myhelper::h/r")) =
        .ok ⟨str "myhelper", str ":h/r", none, [], [], false, [], []⟩ := by rfl
    have h2 := h _ hu (by decide) (by decide) (by decide) (by decide) (by decide)
    rw [h2]
    decide

theorem remoteEndpoint_spec (e : endpointGitFinder) (op remote : Str)
    (hg : e.hasGitEnv = true) (hr : remote ≠ []) :
    e.RemoteEndpoint op remote = specRemoteScoped e op remote := by
  have hlen : ¬ remote.length = 0 := by
    simpa [List.length_eq_zero] using hr
  by_cases hop : op = uploadOp
  · subst hop
    rcases h1 : envGet e.gitEnv (str "remote." ++ (remote ++ str ".lfspushurl")) with _ | u
    · rcases h2 : envGet e.gitEnv (str "remote." ++ (remote ++ str ".lfsurl")) with _ | u
      · rcases h3 : envGet e.gitEnv (str "remote." ++ (remote ++ str ".pushurl")) with _ | u
        · rcases h4 : envGet e.gitEnv (str "remote." ++ (remote ++ str ".url")) with _ | u
          · simp [endpointGitFinder.RemoteEndpoint, specRemoteScoped,
              endpointGitFinder.GitRemoteURL, hg, hlen, h1, h2, h3, h4]
          · simp [endpointGitFinder.RemoteEndpoint, specRemoteScoped,
              endpointGitFinder.GitRemoteURL, hg, hlen, h1, h2, h3, h4]
        · simp [endpointGitFinder.RemoteEndpoint, specRemoteScoped,
            endpointGitFinder.GitRemoteURL, hg, hlen, h1, h2, h3]
      · simp [endpointGitFinder.RemoteEndpoint, specRemoteScoped, hg, hlen, h1, h2]
    · simp [endpointGitFinder.RemoteEndpoint, specRemoteScoped, hg, hlen, h1]
  · rcases h2 : envGet e.gitEnv (str "remote." ++ (remote ++ str ".lfsurl")) with _ | u
    · rcases h4 : envGet e.gitEnv (str "remote." ++ (remote ++ str ".url")) with _ | u
      · simp [endpointGitFinder.RemoteEndpoint, specRemoteScoped,
          endpointGitFinder.GitRemoteURL, hg, hlen, hop, h2, h4]
      · simp [endpointGitFinder.RemoteEndpoint, specRemoteScoped,
          endpointGitFinder.GitRemoteURL, hg, hlen, hop, h2, h4]
    · simp [endpointGitFinder.RemoteEndpoint, specRemoteScoped, hg, hlen, hop, h2]

/-- C3: the resolution cascade agrees with the specification's precedence
order — upload-only global push URL, then global LFS URL, then the
remote-scoped chain for an explicit non-default remote when it yields a
non-empty URL, then the remote-scoped chain for the default remote — and in
the concrete scenario with `lfs.url` unset, `remote.origin.lfsurl` set to
`https://a/api` and a plain clone URL configured, the download endpoint for
`origin` is the explicit LFS URL rather than the clone-derived endpoint. -/
theorem C3_endpoint_cascade :
    (∀ (e : endpointGitFinder) (operation remote : Str),
        e.Endpoint operation remote = specEndpointFor e operation remote) ∧
    (finderScenario.Endpoint (str "download") (str "origin")).url = str "https://a/api" := by
  constructor
  · intro e op remote
    by_cases hg : e.hasGitEnv = true
    · have hdr : (defaultRemote : Str) ≠ [] := by decide
      by_cases hop : op = uploadOp
      · subst hop
        rcases h1 : envGet e.gitEnv (str "lfs.pushurl") with _ | u
        · rcases h2 : envGet e.gitEnv (str "lfs.url") with _ | u
          · have hrd := remoteEndpoint_spec e uploadOp defaultRemote hg hdr
            by_cases hrem : 0 < remote.length ∧ remote ≠ defaultRemote
            · have hr : remote ≠ [] := List.length_pos.mp hrem.1
              have hre := remoteEndpoint_spec e uploadOp remote hg hr
              by_cases hurl : 0 < (specRemoteScoped e uploadOp remote).url.length
              · simp [endpointGitFinder.Endpoint, endpointGitFinder.getEndpoint,
                  specEndpointFor, hg, h1, h2, hrem, hre, hrd, hurl]
              · simp [endpointGitFinder.Endpoint, endpointGitFinder.getEndpoint,
                  specEndpointFor, hg, h1, h2, hrem, hre, hrd, hurl]
            · have hrem' : ¬(0 < remote.length ∧ remote ≠ defaultRemote ∧
                  0 < (specRemoteScoped e uploadOp remote).url.length) :=
                fun h => hrem ⟨h.1, h.2.1⟩
              simp [endpointGitFinder.Endpoint, endpointGitFinder.getEndpoint,
                specEndpointFor, hg, h1, h2, hrem, hrem', hrd]
          · simp [endpointGitFinder.Endpoint, endpointGitFinder.getEndpoint,
              specEndpointFor, hg, h1, h2]
        · simp [endpointGitFinder.Endpoint, endpointGitFinder.getEndpoint,
            specEndpointFor, hg, h1]
      · rcases h2 : envGet e.gitEnv (str "lfs.url") with _ | u
        · have hrd := remoteEndpoint_spec e op defaultRemote hg hdr
          by_cases hrem : 0 < remote.length ∧ remote ≠ defaultRemote
          · have hr : remote ≠ [] := List.length_pos.mp hrem.1
            have hre := remoteEndpoint_spec e op remote hg hr
            by_cases hurl : 0 < (specRemoteScoped e op remote).url.length
            · simp [endpointGitFinder.Endpoint, endpointGitFinder.getEndpoint,
                specEndpointFor, hg, hop, h2, hrem, hre, hrd, hurl]
            · simp [endpointGitFinder.Endpoint, endpointGitFinder.getEndpoint,
                specEndpointFor, hg, hop, h2, hrem, hre, hrd, hurl]
          · have hrem' : ¬(0 < remote.length ∧ remote ≠ defaultRemote ∧
                0 < (specRemoteScoped e op remote).url.length) :=
              fun h => hrem ⟨h.1, h.2.1⟩
            simp [endpointGitFinder.Endpoint, endpointGitFinder.getEndpoint,
              specEndpointFor, hg, hop, h2, hrem, hrem', hrd]
        · simp [endpointGitFinder.Endpoint, endpointGitFinder.getEndpoint,
            specEndpointFor, hg, hop, h2]
    · simp [endpointGitFinder.Endpoint, endpointGitFinder.getEndpoint,
        specEndpointFor, hg]
  · decide

/-- C6: two successive `AccessFor` calls for the same URL with no
intervening `SetAccess` return the identical access mode, and the second
call performs zero configuration lookups (it is served from the in-memory
cache filled or consulted by the first call). -/
theorem C6_access_cached (e : endpointGitFinder) (rawurl : Str) :
    ((e.AccessFor rawurl).2.1.AccessFor rawurl).1.mode = (e.AccessFor rawurl).1.mode ∧
    ((e.AccessFor rawurl).2.1.AccessFor rawurl).2.2 = 0 := by
  by_cases hg : e.hasGitEnv = true
  · rcases hc : lookupAssoc e.urlAccess (urlWithoutAuth rawurl) with _ | m
    · simp [endpointGitFinder.AccessFor, hg, hc, lookupAssoc_setAssoc_self]
    · simp [endpointGitFinder.AccessFor, hg, hc]
  · simp [endpointGitFinder.AccessFor, hg]

/-- C7: `SetAccess` with mode `none` or the empty sentinel removes the local
configuration key `lfs.<url>.access` and caches `none`, so a subsequent
`AccessFor` for that URL returns `none` without the configuration key
existing; any other mode is written to local configuration and cached. -/
theorem C7_set_access (e : endpointGitFinder) (a : Access) :
    ((a.mode = emptyAccess ∨ a.mode = NoneAccess) →
      lookupAssoc (e.SetAccess a).localConfig (str "lfs." ++ a.url ++ str ".access") = none ∧
      lookupAssoc (e.SetAccess a).urlAccess a.url = some NoneAccess ∧
      (urlWithoutAuth a.url = a.url →
        ((e.SetAccess a).AccessFor a.url).1.mode = NoneAccess)) ∧
    (¬(a.mode = emptyAccess ∨ a.mode = NoneAccess) →
      lookupAssoc (e.SetAccess a).localConfig (str "lfs." ++ a.url ++ str ".access") =
        some a.mode ∧
      lookupAssoc (e.SetAccess a).urlAccess a.url = some a.mode) := by
  constructor
  · intro hm
    refine ⟨?_, ?_, ?_⟩
    · simp [endpointGitFinder.SetAccess, hm, lookupAssoc_unsetAssoc_self]
    · simp [endpointGitFinder.SetAccess, hm, lookupAssoc_setAssoc_self]
    · intro hu
      by_cases hg : e.hasGitEnv = true
      · simp [endpointGitFinder.SetAccess, endpointGitFinder.AccessFor, hm, hu, hg,
          lookupAssoc_setAssoc_self]
      · simp [endpointGitFinder.SetAccess, endpointGitFinder.AccessFor, hm, hu, hg]
  · intro hm
    refine ⟨?_, ?_⟩
    · simp [endpointGitFinder.SetAccess, hm, lookupAssoc_setAssoc_self]
    · simp [endpointGitFinder.SetAccess, hm, lookupAssoc_setAssoc_self]

/-- C7 witness: setting mode `none` for URL `u` unsets the key, caches
`none`, and a subsequent lookup returns `none`. -/
theorem C7_witness :
    lookupAssoc (finder0.SetAccess ⟨NoneAccess, str "u"⟩).localConfig
      (str "lfs." ++ str "u" ++ str ".access") = none ∧
    lookupAssoc (finder0.SetAccess ⟨NoneAccess, str "u"⟩).urlAccess (str "u") =
      some NoneAccess ∧
    ((finder0.SetAccess ⟨NoneAccess, str "u"⟩).AccessFor (str "u")).1.mode = NoneAccess := by
  have h := (C7_set_access finder0 ⟨NoneAccess, str "u"⟩).1 (Or.inr rfl)
  exact ⟨h.1, h.2.1, h.2.2 (by decide)⟩

/-- C8 (amended): on a cache miss the mode `AccessFor` returns is `none`
(key absent or empty), `basic`, or the lowercased configured value passed
through verbatim — a value that can lie outside the documented enumeration —
and the deprecated `private` is never returned from a miss. -/
theorem C8_access_mode_range (e : endpointGitFinder) (rawurl : Str)
    (hg : e.hasGitEnv = true)
    (hmiss : lookupAssoc e.urlAccess (urlWithoutAuth rawurl) = none) :
    ((e.AccessFor rawurl).1.mode = NoneAccess ∨
     (e.AccessFor rawurl).1.mode = BasicAccess ∨
     (e.AccessFor rawurl).1.mode =
       toLowerStr (e.urlConfigAccess (urlWithoutAuth rawurl))) ∧
    (e.AccessFor rawurl).1.mode ≠ PrivateAccess := by
  have hmode : (e.AccessFor rawurl).1.mode = e.fetchGitAccess (urlWithoutAuth rawurl) := by
    simp [endpointGitFinder.AccessFor, hg, hmiss]
  rw [hmode]
  unfold endpointGitFinder.fetchGitAccess
  by_cases hlen : 0 < (e.urlConfigAccess (urlWithoutAuth rawurl)).length
  · by_cases hpriv : toLowerStr (e.urlConfigAccess (urlWithoutAuth rawurl)) = PrivateAccess
    · rw [if_pos hlen, if_pos hpriv]
      exact ⟨Or.inr (Or.inl rfl), by decide⟩
    · rw [if_pos hlen, if_neg hpriv]
      exact ⟨Or.inr (Or.inr rfl), hpriv⟩
  · rw [if_neg hlen]
    exact ⟨Or.inl rfl, by decide⟩

/-- C8 witness: with the configured value `digest` and an empty cache, the
returned mode is covered by the amended range and is not `private`. -/
theorem C8_witness :
    ((finderDigest.AccessFor (str "u")).1.mode = NoneAccess ∨
     (finderDigest.AccessFor (str "u")).1.mode = BasicAccess ∨
     (finderDigest.AccessFor (str "u")).1.mode =
       toLowerStr (finderDigest.urlConfigAccess (urlWithoutAuth (str "u")))) ∧
    (finderDigest.AccessFor (str "u")).1.mode ≠ PrivateAccess :=
  C8_access_mode_range finderDigest (str "u") rfl rfl

/-- C8 counterexample: the configured value `digest` is returned verbatim as
the mode and is none of the claimed enumeration values. -/
theorem C8_counterexample :
    (finderDigest.AccessFor (str "u")).1.mode = str "digest" ∧
    str "digest" ≠ NoneAccess ∧ str "digest" ≠ BasicAccess ∧
    str "digest" ≠ PrivateAccess ∧ str "digest" ≠ NegotiateAccess ∧
    str "digest" ≠ NTLMAccess ∧ str "digest" ≠ emptyAccess := by
  refine ⟨by decide, by decide, by decide, by decide, by decide, by decide, by decide⟩

/-- C9: a configured `lfs.<url>.access` value of `private` is normalized to
`basic` on an `AccessFor` cache miss. -/
theorem C9_private_normalizes (e : endpointGitFinder) (rawurl : Str)
    (hg : e.hasGitEnv = true)
    (hmiss : lookupAssoc e.urlAccess (urlWithoutAuth rawurl) = none)
    (hpriv : e.urlConfigAccess (urlWithoutAuth rawurl) = PrivateAccess) :
    (e.AccessFor rawurl).1.mode = BasicAccess := by
  have hmode : (e.AccessFor rawurl).1.mode = e.fetchGitAccess (urlWithoutAuth rawurl) := by
    simp [endpointGitFinder.AccessFor, hg, hmiss]
  rw [hmode]
  unfold endpointGitFinder.fetchGitAccess
  rw [hpriv]
  decide

/-- C9 witness: the finder whose configured access value is `private`
returns `basic` on a miss. -/
theorem C9_witness : (finderPrivate.AccessFor (str "u")).1.mode = BasicAccess :=
  C9_private_normalizes finderPrivate (str "u") rfl rfl rfl

/-- C10: for a URL containing no `@`, `AccessFor` performs no parsing or
normalization: the stripped URL is the input itself, the returned Access
carries exactly the input string, and on a cache miss the cache is keyed by
that exact string. -/
theorem C10_exact_cache_key (e : endpointGitFinder) (rawurl : Str)
    (h : rawurl.contains '@' = false) :
    urlWithoutAuth rawurl = rawurl ∧
    (e.AccessFor rawurl).1.url = rawurl ∧
    (e.hasGitEnv = true → lookupAssoc e.urlAccess rawurl = none →
      (e.AccessFor rawurl).2.1.urlAccess =
        setAssoc e.urlAccess rawurl (e.fetchGitAccess rawurl)) := by
  have hw : urlWithoutAuth rawurl = rawurl := by
    have hne : ¬ (rawurl.contains '@' = true) := by
      rw [h]
      exact Bool.false_ne_true
    unfold urlWithoutAuth
    rw [if_pos hne]
  refine ⟨hw, ?_, ?_⟩
  · by_cases hg : e.hasGitEnv = true
    · rcases hc : lookupAssoc e.urlAccess rawurl with _ | m
      · simp [endpointGitFinder.AccessFor, hw, hg, hc]
      · simp [endpointGitFinder.AccessFor, hw, hg, hc]
    · simp [endpointGitFinder.AccessFor, hw, hg]
  · intro hg hmiss
    simp [endpointGitFinder.AccessFor, hw, hg, hmiss]

/-- C10 witness: the slash-bearing URL `https://h/r` is its own cache key
and is carried verbatim in the returned Access. -/
theorem C10_witness :
    urlWithoutAuth (str "https://h/r") = str "https://h/r" ∧
    (finder0.AccessFor (str "https://h/r")).1.url = str "https://h/r" := by
  have h := C10_exact_cache_key finder0 (str "https://h/r") (by decide)
  exact ⟨h.1, h.2.1⟩
